import Mathlib

/-!
Shallow embedding of the `fix_engine` repository's wire-level message layer:
the map-based codec (`src/message.rs`), the alternative map codec
(`src/fix_message.rs`), the array-based codec (`src/message_optimised.rs`
with `src/tag.rs`), and the stream reassembler (`src/engine.rs`).

Wire text is modelled as `List Char`; the protocol content is ASCII, so
`Char.toNat` is the byte value of a character and list length is byte
length.  Rust `HashMap`s are modelled as association lists whose iteration
order is the list order; `HashMap::insert` replaces the value in place when
the key is present and appends otherwise.
-/

deriving instance DecidableEq for Except

set_option maxRecDepth 8000

namespace FixSpec

/-- Wire text: a list of characters standing for the byte string. -/
abbrev Str := List Char

/-- Embed a string literal as wire text. -/
def str (s : String) : Str := s.data

/-- The field delimiter byte 0x01 (start-of-header control character). -/
def SOH : Char := '\x01'

/-- Byte sum of a piece of wire text (Rust `fix_str.as_bytes().iter().map(..).sum()`). -/
def sumBytes (s : Str) : Nat := (s.map Char.toNat).sum

/-- Core of `natDigits`: structurally recursive on a fuel bound so that the
kernel can evaluate it. -/
def natDigitsCore : Nat → Nat → Str
  | 0, _ => []
  | fuel + 1, n =>
    if n < 10 then [Char.ofNat (48 + n)]
    else natDigitsCore fuel (n / 10) ++ [Char.ofNat (48 + n % 10)]

/-- Decimal digits of a natural number, most significant digit first
(the observable behaviour of Rust `usize::to_string`). -/
def natDigits (n : Nat) : Str := natDigitsCore (n + 1) n

/-- Zero-pad a digit string on the left to width 3 (Rust format `{:03}`). -/
def pad3 (s : Str) : Str := List.replicate (3 - s.length) '0' ++ s

/-- Serialize one `tag=value` field with its trailing delimiter
(Rust `write!(out, "{}={}{}", tag, value, '\x01')`). -/
def renderField (kv : Str × Str) : Str := kv.1 ++ '=' :: kv.2 ++ [SOH]

/-- Serialize a map's fields in iteration order. -/
def renderFields (l : List (Str × Str)) : Str := (l.map renderField).flatten

/-- `HashMap::insert`: replace in place when present, append when absent. -/
def insertKV (k v : Str) : List (Str × Str) → List (Str × Str)
  | [] => [(k, v)]
  | kv :: rest => if kv.1 = k then (k, v) :: rest else kv :: insertKV k v rest

/-- The message of `src/message.rs`: three tag-keyed maps. -/
structure FixMessage where
  header : List (Str × Str)
  body : List (Str × Str)
  trailer : List (Str × Str)
deriving DecidableEq, Repr

/-- `FixMessage::new()`. -/
def FixMessage.new : FixMessage := ⟨[], [], []⟩

/-- Rust `str::split(c)`: split into the pieces between occurrences of `c`
(one more piece than there are occurrences of `c`). -/
def splitChar (c : Char) : Str → List Str
  | [] => [[]]
  | x :: xs =>
    if x = c then [] :: splitChar c xs
    else
      match splitChar c xs with
      | [] => [[x]]
      | t :: ts => (x :: t) :: ts

/-- Rust `str::splitn(2, '=')` as used by the decoders: split at the first
`=`, or fail when there is none. -/
def splitEq : Str → Option (Str × Str)
  | [] => none
  | x :: xs =>
    if x = '=' then some ([], xs)
    else (splitEq xs).map (fun p => (x :: p.1, p.2))

namespace message

/-- `calculate_checksum` of `src/message.rs`: 3-digit zero-padded decimal of
the byte sum mod 256. -/
def calculate_checksum (fix_str : Str) : Str :=
  pad3 (natDigits (sumBytes fix_str % 256))

/-- The fixed serialization order of the mandatory header tags
(`&["8", "9", "35", "49", "56", "34", "52"]` in `FixMessage::encode`). -/
def requiredOrder : List Str :=
  [str "8", str "9", str "35", str "49", str "56", str "34", str "52"]

/-- `FixMessage::encode` of `src/message.rs`.  Returns the mutated message
(`encode` takes `&mut self`) together with the encoded wire text. -/
def encode (m : FixMessage) (clockNow : Str) : FixMessage × Str :=
  let header := if (List.lookup (str "8") m.header).isSome then m.header
                else insertKV (str "8") (str "FIX.4.4") m.header
  let header := if (List.lookup (str "52") header).isSome then header
                else insertKV (str "52") clockNow header
  let fix_body := renderFields m.body
  let body_length_value :=
    (renderFields (header.filter
      (fun kv => !(kv.1 == str "9") && !(kv.1 == str "8")))).length + fix_body.length
  let header := insertKV (str "9") (natDigits body_length_value) header
  let fix_header :=
    (requiredOrder.filterMap
      (fun t => (List.lookup t header).map (fun v => renderField (t, v)))).flatten
  let message_without_checksum := fix_header ++ fix_body
  let checksum := calculate_checksum message_without_checksum
  let trailer := insertKV (str "10") checksum m.trailer
  let fix_trailer := renderFields trailer
  (⟨header, m.body, trailer⟩, fix_header ++ fix_body ++ fix_trailer)

/-- The field-processing loop of `FixMessage::decode` of `src/message.rs`,
carrying the message under construction and the accumulated checksum input. -/
def decodeLoop : List Str → FixMessage → Str → Except String FixMessage
  | [], m, _ => .ok m
  | part :: rest, m, checksum_input =>
    match splitEq part with
    | none => .error "Invalid key-value pair in FIX message"
    | some (tag, value) =>
      let m := if tag = str "9" then { m with header := insertKV tag value m.header } else m
      if tag = str "10" then
        if value ≠ calculate_checksum checksum_input then .error "Invalid checksum"
        else .ok { m with trailer := insertKV tag value m.trailer }
      else
        let checksum_input := checksum_input ++ part ++ [SOH]
        let m :=
          if tag = str "8" ∨ tag = str "35" ∨ tag = str "49" ∨
             tag = str "56" ∨ tag = str "34" ∨ tag = str "52"
          then { m with header := insertKV tag value m.header }
          else { m with body := insertKV tag value m.body }
        decodeLoop rest m checksum_input

/-- `FixMessage::decode` of `src/message.rs`. -/
def decode (fix_str : Str) : Except String FixMessage :=
  if fix_str.getLast? = some SOH then
    let message_without_trailing_soh := fix_str.dropLast
    let fields :=
      (splitChar SOH message_without_trailing_soh).filter (fun x => !x.isEmpty)
    decodeLoop fields FixMessage.new []
  else .error "Message does not end with SOH"

end message

namespace fix_message

/-- `calculate_checksum` of `src/fix_message.rs` (same algorithm as the one
in `src/message.rs`). -/
def calculate_checksum (fix_str : Str) : Str :=
  pad3 (natDigits (sumBytes fix_str % 256))

/-- `REQUIRED_HEADER_FIELDS` of `src/fix_message.rs`. -/
def REQUIRED_HEADER_FIELDS : List Str :=
  [str "8", str "9", str "35", str "49", str "56", str "34", str "52"]

/-- `FixMessage::encode` of `src/fix_message.rs`: mandatory header fields in
fixed order, then the remaining header fields, then body, then trailer. -/
def encode (m : FixMessage) (clockNow : Str) : FixMessage × Str :=
  let header := if (List.lookup (str "8") m.header).isSome then m.header
                else insertKV (str "8") (str "FIX.4.4") m.header
  let header := if (List.lookup (str "52") header).isSome then header
                else insertKV (str "52") clockNow header
  let fix_body := renderFields m.body
  let body_length :=
    fix_body.length + (header.map (fun kv => kv.1.length + kv.2.length + 2)).sum + 3
  let header := insertKV (str "9") (natDigits body_length) header
  let fix_header :=
    (REQUIRED_HEADER_FIELDS.filterMap
      (fun t => (List.lookup t header).map (fun v => renderField (t, v)))).flatten
    ++ renderFields (header.filter (fun kv => !(REQUIRED_HEADER_FIELDS.contains kv.1)))
  let message_without_checksum := fix_header ++ fix_body
  let checksum := calculate_checksum message_without_checksum
  let trailer := insertKV (str "10") checksum m.trailer
  let fix_trailer := renderFields trailer
  (⟨header, m.body, trailer⟩, fix_header ++ fix_body ++ fix_trailer)

end fix_message

namespace tag

/-- `BeginString` of `src/tag.rs`. -/
inductive BeginString
  | Fix4_2
  | Fix4_4
deriving DecidableEq, Repr

/-- value of a `BeginString` tag. -/
def BeginString.value : BeginString → Str
  | .Fix4_2 => str "FIX.4.2"
  | .Fix4_4 => str "FIX.4.4"

/-- `MsgType` of `src/tag.rs`. -/
inductive MsgType
  | Heartbeat | TestRequest | ResendRequest | Reject | SequenceReset | Logout
  | ExecutionReport | OrderCancelReject | Logon | News | SecurityDefinitionRequest
  | OrderSingle | SecurityDefinition | SecurityStatusRequest | SecurityStatus
  | OrderCancelRequest | OrderCancelReplaceRequest | OrderStatusRequest
  | DontKnowTrade | QuoteRequest | MarketDataRequest | MarketDataSnapshotFullRefresh
  | MarketDataIncrementalRefresh | MarketDataRequestReject | TradeCaptureReportRequest
  | TradeCaptureReport | TradeCaptureReportRequestAck
deriving DecidableEq, Repr

/-- value of a `MsgType` tag. -/
def MsgType.value : MsgType → Str
  | .Heartbeat => str "0"
  | .TestRequest => str "1"
  | .ResendRequest => str "2"
  | .Reject => str "3"
  | .SequenceReset => str "4"
  | .Logout => str "5"
  | .ExecutionReport => str "8"
  | .OrderCancelReject => str "9"
  | .Logon => str "A"
  | .News => str "B"
  | .SecurityDefinitionRequest => str "c"
  | .OrderSingle => str "D"
  | .SecurityDefinition => str "d"
  | .SecurityStatusRequest => str "e"
  | .SecurityStatus => str "f"
  | .OrderCancelRequest => str "F"
  | .OrderCancelReplaceRequest => str "G"
  | .OrderStatusRequest => str "H"
  | .DontKnowTrade => str "Q"
  | .QuoteRequest => str "R"
  | .MarketDataRequest => str "V"
  | .MarketDataSnapshotFullRefresh => str "W"
  | .MarketDataIncrementalRefresh => str "X"
  | .MarketDataRequestReject => str "Y"
  | .TradeCaptureReportRequest => str "AD"
  | .TradeCaptureReport => str "AE"
  | .TradeCaptureReportRequestAck => str "AQ"

/-- `PossDupFlag` of `src/tag.rs`. -/
inductive PossDupFlag
  | Yes
  | No
deriving DecidableEq, Repr

/-- value of a `PossDupFlag` tag. -/
def PossDupFlag.value : PossDupFlag → Str
  | .Yes => str "Y"
  | .No => str "N"

/-- `CompID` of `src/tag.rs` (a newtype around a string). -/
structure CompID where
  id : Str
deriving DecidableEq, Repr

/-- `FixTag` of `src/tag.rs`. -/
inductive FixTag
  | BeginString (f : BeginString)
  | MsgType (f : MsgType)
  | BodyLength (s : Str)
  | SenderCompID (f : CompID)
  | TargetCompID (f : CompID)
  | SenderSubID (s : Str)
  | TargetSubID (s : Str)
  | OnBehalfOfSubID (s : Str)
  | MsgSeqNum (s : Str)
  | SenderLocationID (s : Str)
  | PossDupFlag (f : PossDupFlag)
  | OrigSendingTime (s : Str)
  | SendingTime (s : Str)
  | Checksum (s : Str)
  | Symbol (s : Str)
deriving DecidableEq, Repr

/-- `FixField::tag_id` for `FixTag` of `src/tag.rs`. -/
def FixTag.tag_id : FixTag → Str
  | .BeginString _ => str "8"
  | .MsgType _ => str "35"
  | .BodyLength _ => str "9"
  | .SenderCompID _ => str "49"
  | .TargetCompID _ => str "56"
  | .SenderSubID _ => str "50"
  | .TargetSubID _ => str "57"
  | .OnBehalfOfSubID _ => str "116"
  | .MsgSeqNum _ => str "34"
  | .SenderLocationID _ => str "142"
  | .PossDupFlag _ => str "43"
  | .OrigSendingTime _ => str "122"
  | .SendingTime _ => str "52"
  | .Checksum _ => str "10"
  | .Symbol _ => str "55"

/-- `FixField::value` for `FixTag` of `src/tag.rs`. -/
def FixTag.value : FixTag → Str
  | .BeginString f => f.value
  | .MsgType f => f.value
  | .BodyLength length => length
  | .SenderCompID f => f.id
  | .TargetCompID f => f.id
  | .SenderSubID sub_id => sub_id
  | .TargetSubID sub_id => sub_id
  | .OnBehalfOfSubID sub_id => sub_id
  | .MsgSeqNum seq_num => seq_num
  | .SenderLocationID location_id => location_id
  | .PossDupFlag f => f.value
  | .OrigSendingTime orig_time => orig_time
  | .SendingTime time => time
  | .Checksum checksum => checksum
  | .Symbol symbol => symbol

end tag

namespace message_optimised

open tag

/-- The message of `src/message_optimised.rs`: fixed-size slots of optional
tags (arrays modelled as lists). -/
structure FixMessage2 where
  header : List (Option FixTag)
  body : List (Option FixTag)
  trailer : List (Option FixTag)
deriving DecidableEq, Repr

/-- `FixMessage2::new()`: 10 empty header slots, 10 empty body slots, one
empty trailer slot. -/
def FixMessage2.new : FixMessage2 :=
  ⟨List.replicate 10 none, List.replicate 10 none, [none]⟩

/-- `calculate_body_length` of `src/message_optimised.rs`: tag, `=`, value
and delimiter bytes of every populated header and body slot except tags 8
and 9. -/
def calculate_body_length (message : FixMessage2) : Nat :=
  ((((message.header ++ message.body).filterMap id).filter
      (fun t => !(t.tag_id == str "8") && !(t.tag_id == str "9"))).map
    (fun t => t.value.length + t.tag_id.length + 2)).sum

/-- `calculate_checksum` of `src/message_optimised.rs`: byte sum mod 256 as
a number. -/
def calculate_checksum (fix_str : Str) : Nat :=
  sumBytes fix_str % 256

/-- Core of the digit-emitting loop of `int_to_str_no_alloc`, structurally
recursive on a fuel bound. -/
def digitsLoopCore : Nat → Nat → Str
  | 0, _ => []
  | fuel + 1, n =>
    if n = 0 then []
    else digitsLoopCore fuel (n / 10) ++ [Char.ofNat (48 + n % 10)]

/-- The digit-emitting loop of `int_to_str_no_alloc`: decimal digits of a
positive number, most significant first; empty for zero. -/
def digitsLoop (n : Nat) : Str := digitsLoopCore (n + 1) n

/-- `int_to_str_no_alloc` of `src/message_optimised.rs`: minimal decimal
representation, without any zero padding. -/
def int_to_str_no_alloc (n : Nat) : Str :=
  if n = 0 then [Char.ofNat 48] else digitsLoop n

/-- `FixMessage2::encode` of `src/message_optimised.rs`.  Returns the
mutated message together with the encoded wire text. -/
def FixMessage2.encode (m : FixMessage2) : FixMessage2 × Str :=
  let body_length := calculate_body_length m
  let body_length_str := int_to_str_no_alloc body_length
  let header := m.header.set 1 (some (.BodyLength body_length_str))
  let msg_str :=
    (((header ++ m.body).filterMap id).map
      (fun t => t.tag_id ++ '=' :: t.value ++ [SOH])).flatten
  let checksum := int_to_str_no_alloc (calculate_checksum msg_str)
  let trailer := m.trailer.set 0 (some (.Checksum checksum))
  ({ header := header, body := m.body, trailer := trailer },
   msg_str ++ str "10=" ++ checksum ++ [SOH])

end message_optimised

/-- Bool test that `pat` is an initial segment of `s`. -/
def begins : Str → Str → Bool
  | [], _ => true
  | _ :: _, [] => false
  | p :: ps, c :: cs => p == c && begins ps cs

/-- Rust `str::find(&str)`: index of the first occurrence of `pat` as a
contiguous subsequence. -/
def findSubstr (pat : Str) : Str → Option Nat
  | [] => if begins pat [] then some 0 else none
  | c :: tl =>
    if begins pat (c :: tl) then some 0
    else (findSubstr pat tl).map (· + 1)

/-- Rust `str::find(char)`: index of the first occurrence of a character. -/
def findChar (c : Char) : Str → Option Nat
  | [] => none
  | x :: tl => if x = c then some 0 else (findChar c tl).map (· + 1)

namespace engine

/-- `extract_complete_message` of `src/engine.rs`: locate the first `10=`
marker, then the first delimiter at or after it; the complete message is
the buffer prefix through that delimiter, the remainder the bytes after. -/
def extract_complete_message (buffer : Str) : Option (Str × Str) :=
  match findSubstr (str "10=") buffer with
  | some checksum_pos =>
    match findChar SOH (buffer.drop checksum_pos) with
    | some end_pos =>
      some (buffer.take (checksum_pos + end_pos + 1),
            buffer.drop (checksum_pos + end_pos + 1))
    | none => none
  | none => none

end engine

/-! ### Helper definitions used by the statements and proofs -/

/-- Numeric value of a digit string, most significant digit first. -/
def digitsVal (s : Str) : Nat :=
  s.foldl (fun acc ch => acc * 10 + (ch.toNat - 48)) 0

/-- Concatenation of tokens, each terminated by the delimiter: the wire shape
of a sequence of serialized fields. -/
def joinTokens (l : List Str) : Str := (l.map (fun t => t ++ [SOH])).flatten

/-- A well-formed non-checksum token: the first-`=` split succeeds and the
tag is not `10`. -/
def goodTok (t : Str) : Prop :=
  (splitEq t).isSome = true ∧ ((splitEq t).getD ([], [])).1 ≠ str "10"

instance (t : Str) : Decidable (goodTok t) := by
  unfold goodTok; infer_instance

/-- The message state after the decode loop processes one non-checksum
token (mirrors the loop body of `FixMessage::decode`). -/
def stepMessage (tg val : Str) (m : FixMessage) : FixMessage :=
  let m := if tg = str "9" then { m with header := insertKV tg val m.header } else m
  if tg = str "8" ∨ tg = str "35" ∨ tg = str "49" ∨
     tg = str "56" ∨ tg = str "34" ∨ tg = str "52"
  then { m with header := insertKV tg val m.header }
  else { m with body := insertKV tg val m.body }

/-- The logon message of the repository's round-trip test
(`test_fix_message_encode_decode` in `src/message.rs`), with the
body-length field (tag 9) also pre-set by the caller so that all 7
mandatory header fields are present. -/
def exampleLogon : FixMessage :=
  ⟨[(str "8", str "FIX.4.4"), (str "9", str "0"), (str "35", str "A"),
    (str "49", str "SENDER"), (str "56", str "TARGET"), (str "34", str "1"),
    (str "52", str "20231016-12:30:00.123")],
   [(str "98", str "0"), (str "108", str "30")], []⟩

/-- The fixed clock string used by the repository's tests. -/
def fixedClock : Str := str "20231016-12:30:00.123"

/-- A `FixMessage2` whose only populated slot is an empty `Symbol` body
field: its pre-checksum byte sum mod 256 is 83, a two-digit number. -/
def exampleMsg2 : message_optimised.FixMessage2 :=
  { header := List.replicate 10 none,
    body := (List.replicate 10 (none : Option tag.FixTag)).set 0 (some (.Symbol [])),
    trailer := [none] }

/-- A message whose header holds a non-mandatory field (tag 50). -/
def exampleExtraHeader : FixMessage :=
  ⟨[(str "8", str "A"), (str "50", str "Q")], [(str "98", str "0")], []⟩

/-- There is an occurrence of the checksum-field marker `10=` at index `i`. -/
abbrev markerAt (b : Str) (i : Nat) : Prop := begins (str "10=") (b.drop i) = true

/-! ### Byte sums and digit strings -/

theorem natDigitsCore_extra {n : Nat} : ∀ f1 f2 : Nat, n < f1 → n < f2 →
    natDigitsCore f1 n = natDigitsCore f2 n := by
  induction n using Nat.strongRecOn with
  | _ n ih =>
    intro f1 f2 h1 h2
    cases f1 with
    | zero => omega
    | succ g1 =>
      cases f2 with
      | zero => omega
      | succ g2 =>
        rw [natDigitsCore, natDigitsCore]
        by_cases hn : n < 10
        · rw [if_pos hn, if_pos hn]
        · rw [if_neg hn, if_neg hn]
          have hd : n / 10 < n := Nat.div_lt_self (by omega) (by omega)
          rw [ih (n / 10) hd g1 g2 (by omega) (by omega)]

theorem natDigits_eq (n : Nat) :
    natDigits n = if n < 10 then [Char.ofNat (48 + n)]
                  else natDigits (n / 10) ++ [Char.ofNat (48 + n % 10)] := by
  unfold natDigits
  rw [natDigitsCore]
  by_cases hn : n < 10
  · rw [if_pos hn, if_pos hn]
  · rw [if_neg hn, if_neg hn]
    have hd : n / 10 < n := Nat.div_lt_self (by omega) (by omega)
    rw [natDigitsCore_extra n (n / 10 + 1) (by omega) (by omega)]

theorem sumBytes_append (a b : Str) : sumBytes (a ++ b) = sumBytes a + sumBytes b := by
  simp [sumBytes]

theorem toNat_digitChar {d : Nat} (h : d < 10) : (Char.ofNat (48 + d)).toNat = 48 + d := by
  interval_cases d <;> decide

theorem digitChar_lt {d : Nat} (h : d < 10) :
    48 ≤ (Char.ofNat (48 + d)).toNat ∧ (Char.ofNat (48 + d)).toNat < 58 := by
  rw [toNat_digitChar h]; omega

theorem natDigits_mem {n : Nat} {ch : Char} (h : ch ∈ natDigits n) :
    48 ≤ ch.toNat ∧ ch.toNat < 58 := by
  induction n using Nat.strongRecOn with
  | _ n ih =>
    rw [natDigits_eq] at h
    by_cases hn : n < 10
    · simp only [if_pos hn, List.mem_singleton] at h
      subst h; exact digitChar_lt hn
    · simp only [if_neg hn, List.mem_append, List.mem_singleton] at h
      rcases h with h | h
      · exact ih (n / 10) (Nat.div_lt_self (by omega) (by omega)) h
      · subst h; exact digitChar_lt (Nat.mod_lt _ (by omega))

theorem natDigits_foldl (n : Nat) : ∀ acc : Nat,
    (natDigits n).foldl (fun acc ch => acc * 10 + (ch.toNat - 48)) acc
      = acc * 10 ^ (natDigits n).length + n := by
  induction n using Nat.strongRecOn with
  | _ n ih =>
    intro acc
    rw [natDigits_eq]
    by_cases hn : n < 10
    · simp only [if_pos hn, List.foldl_cons, List.foldl_nil, List.length_singleton]
      rw [toNat_digitChar hn]; ring_nf; omega
    · simp only [if_neg hn, List.foldl_append, List.foldl_cons, List.foldl_nil,
        List.length_append, List.length_singleton]
      rw [ih (n / 10) (Nat.div_lt_self (by omega) (by omega)) acc]
      rw [toNat_digitChar (Nat.mod_lt _ (by omega))]
      have hdm := Nat.div_add_mod n 10
      rw [pow_succ]
      ring_nf
      omega

theorem digitsVal_natDigits (n : Nat) : digitsVal (natDigits n) = n := by
  have := natDigits_foldl n 0
  simpa [digitsVal] using this

theorem foldl_zeros (k : Nat) :
    (List.replicate k '0').foldl (fun acc ch => acc * 10 + (ch.toNat - 48)) 0 = 0 := by
  induction k with
  | zero => rfl
  | succ k ih => simpa [List.replicate_succ] using ih

theorem digitsVal_pad3 (s : Str) : digitsVal (pad3 s) = digitsVal s := by
  unfold pad3 digitsVal
  rw [List.foldl_append, foldl_zeros]

theorem pad3_natDigits_inj {a b : Nat}
    (h : pad3 (natDigits a) = pad3 (natDigits b)) : a = b := by
  have := congrArg digitsVal h
  rwa [digitsVal_pad3, digitsVal_pad3, digitsVal_natDigits, digitsVal_natDigits] at this

theorem checksum_eq_imp {s t : Str}
    (h : message.calculate_checksum s = message.calculate_checksum t) :
    sumBytes s % 256 = sumBytes t % 256 :=
  pad3_natDigits_inj h

theorem SOH_not_mem_natDigits {n : Nat} : SOH ∉ natDigits n := by
  intro h
  have := natDigits_mem h
  have : SOH.toNat = 1 := by decide
  omega

theorem SOH_not_mem_checksum {s : Str} : SOH ∉ message.calculate_checksum s := by
  unfold message.calculate_checksum pad3
  intro h
  rcases List.mem_append.mp h with h | h
  · have h0 := List.eq_of_mem_replicate h
    exact absurd h0 (by decide)
  · exact SOH_not_mem_natDigits h

/-! ### Splitting and joining delimiter-terminated tokens -/

theorem joinTokens_nil : joinTokens [] = [] := rfl

theorem joinTokens_cons (t : Str) (l : List Str) :
    joinTokens (t :: l) = t ++ SOH :: joinTokens l := by
  simp [joinTokens]

theorem joinTokens_append (a b : List Str) :
    joinTokens (a ++ b) = joinTokens a ++ joinTokens b := by
  simp [joinTokens]

theorem splitChar_no_delim {c : Char} {t : Str} (h : c ∉ t) :
    splitChar c t = [t] := by
  induction t with
  | nil => rfl
  | cons x xs ih =>
    have hx : x ≠ c := fun hc => h (hc ▸ List.mem_cons_self x xs)
    have hxs : c ∉ xs := fun hc => h (List.mem_cons_of_mem x hc)
    rw [splitChar, if_neg hx, ih hxs]

theorem splitChar_append_delim {c : Char} {t u : Str} (h : c ∉ t) :
    splitChar c (t ++ c :: u) = t :: splitChar c u := by
  induction t with
  | nil => simp [splitChar]
  | cons x xs ih =>
    have hx : x ≠ c := fun hc => h (hc ▸ List.mem_cons_self x xs)
    have hxs : c ∉ xs := fun hc => h (List.mem_cons_of_mem x hc)
    rw [List.cons_append, splitChar, if_neg hx, ih hxs]

theorem splitChar_joinTokens (l : List Str) (u : Str)
    (h : ∀ t ∈ l, SOH ∉ t) :
    splitChar SOH (joinTokens l ++ u) = l ++ splitChar SOH u := by
  induction l with
  | nil => simp [joinTokens]
  | cons t ts ih =>
    rw [joinTokens_cons, List.append_assoc, List.cons_append]
    rw [splitChar_append_delim (h t (List.mem_cons_self t ts))]
    rw [ih (fun t' ht' => h t' (List.mem_cons_of_mem t ht'))]
    rfl

theorem filter_nonempty_eq {l : List Str} (h : ∀ t ∈ l, t ≠ []) :
    l.filter (fun x => !x.isEmpty) = l := by
  induction l with
  | nil => rfl
  | cons t ts ih =>
    have ht : (!t.isEmpty) = true := by
      have := h t (List.mem_cons_self t ts)
      cases t with
      | nil => exact absurd rfl this
      | cons a b => rfl
    rw [List.filter_cons, if_pos ht, ih (fun t' ht' => h t' (List.mem_cons_of_mem t ht'))]

theorem splitEq_append_of_mem {x : Str} (hx : '=' ∈ x) (r : Str) :
    splitEq (x ++ r) = (splitEq x).map (fun p => (p.1, p.2 ++ r)) := by
  induction x with
  | nil => exact absurd hx (List.not_mem_nil _)
  | cons a xs ih =>
    by_cases ha : a = '='
    · subst ha
      simp [splitEq]
    · have hxs : '=' ∈ xs := by
        rcases List.mem_cons.mp hx with h | h
        · exact absurd h.symm ha
        · exact h
      rw [List.cons_append, splitEq, if_neg ha, splitEq, if_neg ha, ih hxs]
      rcases hs : splitEq xs with _ | ⟨p1, p2⟩ <;> simp [hs]

theorem splitEq_prefix10 (v : Str) : splitEq (str "10=" ++ v) = some (str "10", v) := by
  have : str "10=" ++ v = (['1', '0'] : Str) ++ '=' :: v := rfl
  rw [this]
  rfl

/-! ### Decode loop lemmas -/

theorem decodeLoop_cons_ne10 {t tg val : Str} (hs : splitEq t = some (tg, val))
    (h10 : tg ≠ str "10") (rest : List Str) (m : FixMessage) (ck : Str) :
    message.decodeLoop (t :: rest) m ck
      = message.decodeLoop rest (stepMessage tg val m) (ck ++ t ++ [SOH]) := by
  simp only [message.decodeLoop, hs, if_neg h10, stepMessage]

theorem decodeLoop_tok10 (v : Str) (rest : List Str) (m : FixMessage) (ck : Str) :
    message.decodeLoop ((str "10=" ++ v) :: rest) m ck
      = if v ≠ message.calculate_checksum ck then .error "Invalid checksum"
        else .ok { m with trailer := insertKV (str "10") v m.trailer } := by
  simp only [message.decodeLoop, splitEq_prefix10]
  rw [if_neg (show ¬ str "10" = str "9" by decide)]
  rw [if_pos trivial]

theorem decodeLoop_checksum (v : Str) : ∀ (front rest : List Str) (m : FixMessage) (ck : Str),
    (∀ t ∈ front, goodTok t) →
    (v ≠ message.calculate_checksum (ck ++ joinTokens front) →
        message.decodeLoop (front ++ (str "10=" ++ v) :: rest) m ck
          = .error "Invalid checksum") ∧
    (v = message.calculate_checksum (ck ++ joinTokens front) →
        ∃ msg, message.decodeLoop (front ++ (str "10=" ++ v) :: rest) m ck = .ok msg) := by
  intro front
  induction front with
  | nil =>
    intro rest m ck _
    rw [List.nil_append, decodeLoop_tok10, joinTokens_nil, List.append_nil]
    constructor
    · intro hne; rw [if_pos hne]
    · intro heq; rw [if_neg (by simpa using heq)]; exact ⟨_, rfl⟩
  | cons t front' ih =>
    intro rest m ck hg
    have hgt := hg t (List.mem_cons_self t front')
    rcases hp : splitEq t with _ | ⟨tg, val⟩
    · exact absurd (hp ▸ hgt.1) (by simp)
    · have h10 : tg ≠ str "10" := by
        have := hgt.2; rw [hp] at this; simpa using this
      rw [List.cons_append, decodeLoop_cons_ne10 hp h10]
      have hck : (ck ++ t ++ [SOH]) ++ joinTokens front' = ck ++ joinTokens (t :: front') := by
        rw [joinTokens_cons]; simp [List.append_assoc]
      have := ih rest (stepMessage tg val m) (ck ++ t ++ [SOH])
        (fun t' ht' => hg t' (List.mem_cons_of_mem t ht'))
      rw [hck] at this
      exact this

/-- Every token after the first `10`-tagged token is irrelevant to the loop. -/
theorem decodeLoop_stop (v : Str) : ∀ (front rest : List Str) (m : FixMessage) (ck : Str),
    message.decodeLoop (front ++ (str "10=" ++ v) :: rest) m ck
      = message.decodeLoop (front ++ [str "10=" ++ v]) m ck := by
  intro front
  induction front with
  | nil =>
    intro rest m ck
    rw [List.nil_append, List.nil_append, decodeLoop_tok10, decodeLoop_tok10]
  | cons t front' ih =>
    intro rest m ck
    rw [List.cons_append, List.cons_append]
    rcases hp : splitEq t with _ | ⟨tg, val⟩
    · simp only [message.decodeLoop, hp]
    · by_cases h10 : tg = str "10"
      · subst h10
        simp only [message.decodeLoop, hp]
        rw [if_pos trivial, if_pos trivial]
      · rw [decodeLoop_cons_ne10 hp h10, decodeLoop_cons_ne10 hp h10, ih]

/-! ### Association list lemmas -/

theorem lookup_insertKV_self (k v : Str) (l : List (Str × Str)) :
    List.lookup k (insertKV k v l) = some v := by
  induction l with
  | nil => simp [insertKV, List.lookup]
  | cons kv l' ih =>
    rw [insertKV]
    by_cases h : kv.1 = k
    · rw [if_pos h]; simp [List.lookup]
    · rw [if_neg h]
      rcases kv with ⟨k1, v1⟩
      simp only at h
      rw [List.lookup_cons]
      have : (k == k1) = false := by
        simp only [beq_eq_false_iff_ne, ne_eq]
        exact fun hk => h hk.symm
      rw [this]
      exact ih

theorem lookup_insertKV_ne {k k' : Str} (h : k' ≠ k) (v : Str) (l : List (Str × Str)) :
    List.lookup k' (insertKV k v l) = List.lookup k' l := by
  induction l with
  | nil =>
    simp only [insertKV, List.lookup]
    have : (k' == k) = false := by simpa using h
    rw [this]
  | cons kv l' ih =>
    rw [insertKV]
    by_cases hk : kv.1 = k
    · rw [if_pos hk]
      rcases kv with ⟨k1, v1⟩
      simp only at hk
      subst hk
      rw [List.lookup_cons, List.lookup_cons]
      have hb : (k' == k1) = false := by simpa using h
      rw [hb]
    · rw [if_neg hk]
      rcases kv with ⟨k1, v1⟩
      rw [List.lookup_cons, List.lookup_cons]
      rcases hbeq : (k' == k1) with _ | _
      · exact ih
      · rfl

theorem filter_insertKV {p : Str × Str → Bool} {k : Str}
    (hp : ∀ w, p (k, w) = false) (v : Str) (l : List (Str × Str)) :
    (insertKV k v l).filter p = l.filter p := by
  induction l with
  | nil => simp [insertKV, List.filter, hp v]
  | cons kv l' ih =>
    rw [insertKV]
    by_cases h : kv.1 = k
    · rw [if_pos h]
      rcases kv with ⟨k1, v1⟩
      simp only at h
      subst h
      rw [List.filter_cons, List.filter_cons, hp v, hp v1]
      simp
    · rw [if_neg h, List.filter_cons, List.filter_cons]
      rcases hq : p kv with _ | _ <;> simp [hq, ih]

theorem insertKV_insertKV_same (k a b : Str) (l : List (Str × Str)) :
    insertKV k a (insertKV k b l) = insertKV k a l := by
  induction l with
  | nil => simp [insertKV]
  | cons kv l' ih =>
    rw [insertKV]
    by_cases h : kv.1 = k
    · rw [if_pos h, insertKV, insertKV, if_pos rfl, if_pos h]
    · rw [if_neg h, insertKV, insertKV, if_neg h, if_neg h, ih]

theorem mem_keys_insertKV {x k v : Str} {l : List (Str × Str)}
    (h : x ∈ (insertKV k v l).map Prod.fst) : x = k ∨ x ∈ l.map Prod.fst := by
  induction l with
  | nil => simpa [insertKV] using h
  | cons kv l' ih =>
    rw [insertKV] at h
    by_cases hk : kv.1 = k
    · rw [if_pos hk] at h
      rcases List.mem_cons.mp h with h | h
      · exact Or.inl h
      · exact Or.inr (by simp only [List.map_cons]; exact List.mem_cons_of_mem _ h)
    · rw [if_neg hk] at h
      rcases List.mem_cons.mp h with h | h
      · exact Or.inr (by simp only [List.map_cons]; exact h ▸ List.mem_cons_self _ _)
      · rcases ih h with h | h
        · exact Or.inl h
        · exact Or.inr (by simp only [List.map_cons]; exact List.mem_cons_of_mem _ h)

theorem nodup_keys_insertKV {k v : Str} {l : List (Str × Str)}
    (h : (l.map Prod.fst).Nodup) : ((insertKV k v l).map Prod.fst).Nodup := by
  induction l with
  | nil => simp [insertKV]
  | cons kv l' ih =>
    rw [List.map_cons, List.nodup_cons] at h
    rw [insertKV]
    by_cases hk : kv.1 = k
    · rw [if_pos hk, List.map_cons, List.nodup_cons]
      exact ⟨hk ▸ h.1, h.2⟩
    · rw [if_neg hk, List.map_cons, List.nodup_cons]
      refine ⟨fun hmem => ?_, ih h.2⟩
      rcases mem_keys_insertKV hmem with he | he
      · exact hk he
      · exact h.1 he

theorem mem_of_lookup_eq_some {k v : Str} {l : List (Str × Str)}
    (h : List.lookup k l = some v) : (k, v) ∈ l := by
  induction l with
  | nil => simp [List.lookup] at h
  | cons kv l' ih =>
    rcases kv with ⟨k1, v1⟩
    rw [List.lookup_cons] at h
    rcases hbeq : (k == k1) with _ | _
    · rw [hbeq] at h
      exact List.mem_cons_of_mem _ (ih h)
    · rw [hbeq] at h
      simp only [Option.some.injEq] at h
      have hk : k = k1 := by simpa using hbeq
      subst hk; subst h
      exact List.mem_cons_self _ _

theorem lookup_eq_some_of_mem_nodup {k v : Str} {l : List (Str × Str)}
    (hnd : (l.map Prod.fst).Nodup) (h : (k, v) ∈ l) : List.lookup k l = some v := by
  induction l with
  | nil => exact absurd h (List.not_mem_nil _)
  | cons kv l' ih =>
    rcases kv with ⟨k1, v1⟩
    rw [List.map_cons, List.nodup_cons] at hnd
    rcases List.mem_cons.mp h with h | h
    · cases h
      rw [List.lookup_cons]
      simp
    · rw [List.lookup_cons]
      have hk : k ≠ k1 := by
        intro he
        refine hnd.1 ?_
        rw [← he]
        exact List.mem_map_of_mem (a := (k, v)) Prod.fst h
      have hb : (k == k1) = false := by simpa using hk
      rw [hb]
      exact ih hnd.2 h

theorem sumBytes_cons (c : Char) (t : Str) : sumBytes (c :: t) = c.toNat + sumBytes t := by
  simp [sumBytes]

theorem splitEq_eq_none {t : Str} : splitEq t = none ↔ '=' ∉ t := by
  induction t with
  | nil => simp [splitEq]
  | cons a xs ih =>
    by_cases ha : a = '='
    · subst ha
      simp [splitEq]
    · rw [splitEq, if_neg ha]
      simp only [Option.map_eq_none', ih, List.mem_cons]
      constructor
      · intro h hc
        rcases hc with hc | hc
        · exact ha hc.symm
        · exact h hc
      · intro h hc
        exact h (Or.inr hc)

theorem sumBytes_joinTokens_decomp (A B : List Str) (t : Str) :
    sumBytes (joinTokens (A ++ t :: B))
      = sumBytes (joinTokens A) + (sumBytes t + 1) + sumBytes (joinTokens B) := by
  rw [joinTokens_append, sumBytes_append, joinTokens_cons, sumBytes_append, sumBytes_cons]
  have h1 : SOH.toNat = 1 := by decide
  omega

theorem filter_insertKV_pos {p : Str × Str → Bool} {k : Str}
    (hp : ∀ w, p (k, w) = true) (v : Str) (l : List (Str × Str)) :
    (insertKV k v l).filter p = insertKV k v (l.filter p) := by
  induction l with
  | nil =>
    simp only [insertKV, List.filter_nil, List.filter_cons, hp v]
    rfl
  | cons kv l' ih =>
    simp only [insertKV]
    by_cases h : kv.1 = k
    · rcases kv with ⟨k1, v1⟩
      simp only at h
      subst h
      rw [if_pos rfl, List.filter_cons, List.filter_cons, hp v, hp v1]
      simp [insertKV]
    · rw [if_neg h, List.filter_cons, List.filter_cons]
      rcases hq : p kv with _ | _
      · simp only [hq, Bool.false_eq_true, if_false]
        exact ih
      · simp only [hq, if_true]
        simp only [insertKV]
        rw [if_neg h, ih]

theorem mem_insertKV {kv' : Str × Str} {k v : Str} {l : List (Str × Str)}
    (h : kv' ∈ insertKV k v l) : kv' = (k, v) ∨ kv' ∈ l := by
  induction l with
  | nil => simpa [insertKV] using h
  | cons kv l' ih =>
    rw [insertKV] at h
    by_cases hk : kv.1 = k
    · rw [if_pos hk] at h
      rcases List.mem_cons.mp h with h | h
      · exact Or.inl h
      · exact Or.inr (List.mem_cons_of_mem _ h)
    · rw [if_neg hk] at h
      rcases List.mem_cons.mp h with h | h
      · exact Or.inr (h ▸ List.mem_cons_self _ _)
      · rcases ih h with h | h
        · exact Or.inl h
        · exact Or.inr (List.mem_cons_of_mem _ h)

theorem keys_filterMap_sub (f : Str → Option Str) (l : List Str) :
    ((l.filterMap (fun t => (f t).map (fun v => (t, v)))).map Prod.fst).Sublist l := by
  induction l with
  | nil => exact List.nil_sublist []
  | cons a l' ih =>
    rw [List.filterMap_cons]
    cases hf : f a with
    | none => exact ih.cons a
    | some v =>
      simp only [Option.map_some', List.map_cons]
      exact ih.cons₂ a

/-- The key fact behind the body-length computation: when the header's keys
are all mandatory and unique, its non-8, non-9 entries are a permutation
of the entries found by looking up the five mandatory tags that follow the
body-length field in the fixed serialization order. -/
theorem filter_perm_filterMap {H : List (Str × Str)}
    (hnd : (H.map Prod.fst).Nodup)
    (hsub : ∀ kv ∈ H, kv.1 ∈ message.requiredOrder) :
    (H.filter (fun kv => !(kv.1 == str "9") && !(kv.1 == str "8"))).Perm
      ([str "35", str "49", str "56", str "34", str "52"].filterMap
        (fun t => (List.lookup t H).map (fun v => (t, v)))) := by
  have hndA : (H.filter (fun kv => !(kv.1 == str "9") && !(kv.1 == str "8"))).Nodup :=
    (List.Nodup.of_map Prod.fst hnd).filter _
  have hndB : ([str "35", str "49", str "56", str "34", str "52"].filterMap
      (fun t => (List.lookup t H).map (fun v => (t, v)))).Nodup := by
    apply List.Nodup.of_map Prod.fst
    apply (keys_filterMap_sub (fun t => List.lookup t H) _).nodup
    decide
  apply (List.perm_ext_iff_of_nodup hndA hndB).mpr
  intro a
  obtain ⟨k, v⟩ := a
  rw [List.mem_filter, List.mem_filterMap]
  constructor
  · rintro ⟨hmem, hp⟩
    have h89 : k ≠ str "9" ∧ k ≠ str "8" := by
      constructor
      · intro he
        subst he
        have hp' : (!(str "9" == str "9") && !(str "9" == str "8")) = true := hp
        exact absurd hp' (by decide)
      · intro he
        subst he
        have hp' : (!(str "8" == str "9") && !(str "8" == str "8")) = true := hp
        exact absurd hp' (by decide)
    refine ⟨k, ?_, ?_⟩
    · have hkreq := hsub _ hmem
      revert hkreq
      simp only [message.requiredOrder, List.mem_cons, List.not_mem_nil, or_false]
      rintro (h | h | h | h | h | h | h) <;>
        first
          | exact absurd h h89.2
          | exact absurd h h89.1
          | simp [h]
    · rw [lookup_eq_some_of_mem_nodup hnd hmem]
      rfl
  · rintro ⟨t, htmem, hteq⟩
    have : t = k ∧ List.lookup k H = some v := by
      rcases hl : List.lookup t H with _ | w
      · rw [hl] at hteq; exact absurd hteq (by simp)
      · rw [hl] at hteq
        simp only [Option.map_some', Option.some.injEq, Prod.mk.injEq] at hteq
        refine ⟨hteq.1, ?_⟩
        rw [← hteq.1, hl, hteq.2]
    obtain ⟨rfl, hlk⟩ := this
    refine ⟨mem_of_lookup_eq_some hlk, ?_⟩
    revert htmem
    simp only [List.mem_cons, List.not_mem_nil, or_false]
    rintro (h | h | h | h | h) <;> subst h <;> decide

theorem exists_decomp_left {A rf : Str} (S : Str)
    (h : ∃ pre post, A = pre ++ rf ++ post) :
    ∃ pre post, A ++ S = pre ++ rf ++ post := by
  obtain ⟨p, q, rfl⟩ := h
  exact ⟨p, q ++ S, by simp [List.append_assoc]⟩

theorem exists_decomp_right {B rf : Str} (S : Str)
    (h : ∃ pre post, B = pre ++ rf ++ post) :
    ∃ pre post, S ++ B = pre ++ rf ++ post := by
  obtain ⟨p, q, rfl⟩ := h
  exact ⟨S ++ p, q, by simp [List.append_assoc]⟩

theorem flatten_filterMap_contains {t v : Str} {H : List (Str × Str)} (L : List Str)
    (ht : t ∈ L) (hl : List.lookup t H = some v) :
    ∃ pre post,
      (L.filterMap (fun u => (List.lookup u H).map (fun w => renderField (u, w)))).flatten
        = pre ++ renderField (t, v) ++ post := by
  induction L with
  | nil => exact absurd ht (List.not_mem_nil t)
  | cons a L' ih =>
    rw [List.filterMap_cons]
    rcases List.mem_cons.mp ht with rfl | htL'
    · simp only [hl, Option.map_some', List.flatten_cons]
      exact ⟨[], _, rfl⟩
    · cases hla : List.lookup a H with
      | none =>
        simp only [hla, Option.map_none']
        exact ih htL'
      | some w =>
        obtain ⟨pre, post, hpp⟩ := ih htL'
        simp only [hla, Option.map_some', List.flatten_cons, hpp]
        exact ⟨renderField (a, w) ++ pre, post, by simp [List.append_assoc]⟩

theorem renderFields_contains {kv : Str × Str} {l : List (Str × Str)} (h : kv ∈ l) :
    ∃ pre post, renderFields l = pre ++ renderField kv ++ post := by
  obtain ⟨s, t, rfl⟩ := List.append_of_mem h
  refine ⟨renderFields s, renderFields t, ?_⟩
  simp [renderFields, List.append_assoc]

/-! ### Substring search lemmas -/

theorem begins_iff {pat s : Str} : begins pat s = true ↔ ∃ u, s = pat ++ u := by
  induction pat generalizing s with
  | nil => simp [begins]
  | cons p ps ih =>
    cases s with
    | nil =>
      simp [begins]
    | cons c cs =>
      simp only [begins, Bool.and_eq_true, beq_iff_eq, ih, List.cons_append, List.cons.injEq]
      constructor
      · rintro ⟨rfl, u, rfl⟩
        exact ⟨u, rfl, rfl⟩
      · rintro ⟨u, rfl, rfl⟩
        exact ⟨rfl, u, rfl⟩

theorem begins_of_decomp {x u : Str} : begins x (x ++ u) = true :=
  begins_iff.mpr ⟨u, rfl⟩

theorem findSubstr_some {pat s : Str} {i : Nat} (h : findSubstr pat s = some i) :
    begins pat (s.drop i) = true ∧ ∀ j, j < i → begins pat (s.drop j) = false := by
  induction s generalizing i with
  | nil =>
    rw [findSubstr] at h
    by_cases hb : begins pat [] = true
    · rw [if_pos hb] at h
      injection h with h
      subst h
      exact ⟨hb, fun j hj => absurd hj (by omega)⟩
    · rw [if_neg hb] at h
      exact absurd h (by simp)
  | cons c tl ih =>
    rw [findSubstr] at h
    by_cases hb : begins pat (c :: tl) = true
    · rw [if_pos hb] at h
      injection h with h
      subst h
      exact ⟨hb, fun j hj => absurd hj (by omega)⟩
    · rw [if_neg hb] at h
      cases hf : findSubstr pat tl with
      | none => rw [hf] at h; exact absurd h (by simp)
      | some i' =>
        rw [hf] at h
        have h' : i' + 1 = i := by simpa using h
        subst h'
        obtain ⟨hb', hmin'⟩ := ih hf
        refine ⟨by simpa using hb', fun j hj => ?_⟩
        cases j with
        | zero => simpa using (Bool.not_eq_true _).mp hb
        | succ j' =>
          have : begins pat (tl.drop j') = false := hmin' j' (by omega)
          simpa using this

theorem findSubstr_none {pat s : Str} (h : findSubstr pat s = none) (j : Nat) :
    begins pat (s.drop j) = false := by
  induction s generalizing j with
  | nil =>
    rw [findSubstr] at h
    by_cases hb : begins pat [] = true
    · rw [if_pos hb] at h; exact absurd h (by simp)
    · rw [List.drop_nil]
      exact (Bool.not_eq_true _).mp hb
  | cons c tl ih =>
    rw [findSubstr] at h
    by_cases hb : begins pat (c :: tl) = true
    · rw [if_pos hb] at h; exact absurd h (by simp)
    · rw [if_neg hb] at h
      have hf : findSubstr pat tl = none := by
        cases hf : findSubstr pat tl with
        | none => rfl
        | some i' => rw [hf] at h; exact absurd h (by simp)
      cases j with
      | zero => simpa using (Bool.not_eq_true _).mp hb
      | succ j' => simpa using ih hf j'

theorem findSubstr_eq_some_of_first {pat s : Str} {i : Nat}
    (hb : begins pat (s.drop i) = true)
    (hmin : ∀ k, k < i → begins pat (s.drop k) = false) :
    findSubstr pat s = some i := by
  cases hf : findSubstr pat s with
  | none => exact absurd hb (by rw [findSubstr_none hf i]; simp)
  | some i' =>
    obtain ⟨hb', hmin'⟩ := findSubstr_some hf
    rcases lt_trichotomy i' i with h | h | h
    · exact absurd hb' (by rw [hmin i' h]; simp)
    · rw [h]
    · exact absurd hb (by rw [hmin' i h]; simp)

theorem findSubstr_isSome_of_decomp {x pre post s : Str} (h : s = pre ++ x ++ post) :
    (findSubstr x s).isSome = true := by
  cases hf : findSubstr x s with
  | none =>
    have := findSubstr_none hf pre.length
    subst h
    rw [List.append_assoc, List.drop_left] at this
    rw [begins_of_decomp] at this
    exact absurd this (by simp)
  | some i => rfl

theorem findChar_some {c : Char} {s : Str} {i : Nat} (h : findChar c s = some i) :
    s[i]? = some c ∧ ∀ j, j < i → s[j]? ≠ some c := by
  induction s generalizing i with
  | nil => rw [findChar] at h; exact absurd h (by simp)
  | cons x tl ih =>
    rw [findChar] at h
    by_cases hx : x = c
    · rw [if_pos hx] at h
      injection h with h
      subst h
      subst hx
      exact ⟨by simp, fun j hj => absurd hj (by omega)⟩
    · rw [if_neg hx] at h
      cases hf : findChar c tl with
      | none => rw [hf] at h; exact absurd h (by simp)
      | some i' =>
        rw [hf] at h
        have h' : i' + 1 = i := by simpa using h
        subst h'
        obtain ⟨hb', hmin'⟩ := ih hf
        refine ⟨by simpa using hb', fun j hj => ?_⟩
        cases j with
        | zero => simpa using hx
        | succ j' =>
          have := hmin' j' (by omega)
          simpa using this

theorem findChar_none {c : Char} {s : Str} (h : findChar c s = none) (j : Nat) :
    s[j]? ≠ some c := by
  induction s generalizing j with
  | nil => simp
  | cons x tl ih =>
    rw [findChar] at h
    by_cases hx : x = c
    · rw [if_pos hx] at h; exact absurd h (by simp)
    · rw [if_neg hx] at h
      have hf : findChar c tl = none := by
        cases hf : findChar c tl with
        | none => rfl
        | some i' => rw [hf] at h; exact absurd h (by simp)
      cases j with
      | zero => simpa using hx
      | succ j' => simpa using ih hf j'

theorem findChar_eq_some_of_first {c : Char} {s : Str} {i : Nat}
    (hb : s[i]? = some c) (hmin : ∀ k, k < i → s[k]? ≠ some c) :
    findChar c s = some i := by
  cases hf : findChar c s with
  | none => exact absurd hb (findChar_none hf i)
  | some i' =>
    obtain ⟨hb', hmin'⟩ := findChar_some hf
    rcases lt_trichotomy i' i with h | h | h
    · exact absurd hb' (hmin i' h)
    · rw [h]
    · exact absurd hb (hmin' i h)

/-- C7: `extract_complete_message` returns the buffer prefix through the
first delimiter at or after the first `10=` marker (inclusive) together
with exactly the bytes after it, and returns `none` — retaining the buffer
for the next call — when the marker, or a delimiter at or after it, is
absent. -/
theorem extract_complete_message_spec (buffer : Str) :
    (∀ i j, markerAt buffer i → (∀ k, k < i → ¬ markerAt buffer k) →
        i ≤ j → buffer[j]? = some SOH →
        (∀ k, k < j → i ≤ k → buffer[k]? ≠ some SOH) →
        engine.extract_complete_message buffer
          = some (buffer.take (j + 1), buffer.drop (j + 1))) ∧
    (∀ i, markerAt buffer i → (∀ k, k < i → ¬ markerAt buffer k) →
        (∀ j, i ≤ j → buffer[j]? ≠ some SOH) →
        engine.extract_complete_message buffer = none) ∧
    ((∀ i, ¬ markerAt buffer i) → engine.extract_complete_message buffer = none) := by
  refine ⟨?_, ?_, ?_⟩
  · intro i j hm hmin hij hj hjmin
    have h1 : findSubstr (str "10=") buffer = some i :=
      findSubstr_eq_some_of_first hm
        (fun k hk => by have := hmin k hk; simpa [markerAt] using this)
    have h2 : findChar SOH (buffer.drop i) = some (j - i) := by
      apply findChar_eq_some_of_first
      · rw [List.getElem?_drop, show i + (j - i) = j from by omega]
        exact hj
      · intro k hk
        rw [List.getElem?_drop]
        exact hjmin (i + k) (by omega) (by omega)
    simp only [engine.extract_complete_message, h1, h2]
    rw [show i + (j - i) + 1 = j + 1 from by omega]
  · intro i hm hmin hnone
    have h1 : findSubstr (str "10=") buffer = some i :=
      findSubstr_eq_some_of_first hm
        (fun k hk => by have := hmin k hk; simpa [markerAt] using this)
    have h2 : findChar SOH (buffer.drop i) = none := by
      cases hf : findChar SOH (buffer.drop i) with
      | none => rfl
      | some e =>
        obtain ⟨he, -⟩ := findChar_some hf
        rw [List.getElem?_drop] at he
        exact absurd he (hnone (i + e) (by omega))
    simp only [engine.extract_complete_message, h1, h2]
  · intro hnone
    have h1 : findSubstr (str "10=") buffer = none := by
      cases hf : findSubstr (str "10=") buffer with
      | none => rfl
      | some i =>
        obtain ⟨hb, -⟩ := findSubstr_some hf
        exact absurd hb (by simpa [markerAt] using hnone i)
    simp only [engine.extract_complete_message, h1]

/-- Witness for C7: a buffer holding two complete back-to-back messages
yields the first message and a remainder equal to the second message. -/
theorem extract_complete_message_spec_w :
    engine.extract_complete_message (str "8=A\x0110=079\x018=B\x0110=123\x01")
      = some (str "8=A\x0110=079\x01", str "8=B\x0110=123\x01") := by
  have h := (extract_complete_message_spec (str "8=A\x0110=079\x018=B\x0110=123\x01")).1
    4 10 (by decide) (by decide) (by omega) (by decide) (by decide)
  exact h.trans (by decide)

/-- C10: decoding stops at the first field whose tag is `10`: the result of
`decode` is fully determined by the tokens up to and including that field —
every later token is never parsed, never classified and never added to the
checksum input. -/
theorem decode_stops_at_checksum (s : Str) (front : List Str) (v : Str) (rest : List Str)
    (hend : s.getLast? = some SOH)
    (htok : (splitChar SOH s.dropLast).filter (fun x => !x.isEmpty)
              = front ++ (str "10=" ++ v) :: rest) :
    message.decode s = message.decodeLoop (front ++ [str "10=" ++ v]) FixMessage.new [] := by
  simp only [message.decode, if_pos hend]
  rw [htok]
  exact decodeLoop_stop v front rest FixMessage.new []

/-- Witness for C10: trailing garbage after the checksum field (a token
with no `=` at all) is ignored by `decode`. -/
theorem decode_stops_at_checksum_w :
    message.decode (str "8=A\x0110=183\x01junk\x01")
      = message.decodeLoop ([str "8=A"] ++ [str "10=" ++ str "183"]) FixMessage.new [] :=
  decode_stops_at_checksum (str "8=A\x0110=183\x01junk\x01")
    [str "8=A"] (str "183") [str "junk"] (by decide) (by decide)

/-- C1: the round-trip claim fails on the code.  For the repository's own
round-trip test message (all 7 mandatory header fields set, non-empty
body), `decode (encode m)` succeeds, but the decoded body map additionally
contains a `9` entry holding the computed body length, which is in neither
the caller's body map nor the encoder-updated body map: the body key/value
sets are not identical.  (The `continue` after the tag-9 branch of
`FixMessage::decode` is commented out, so tag 9 falls through into the
body classification.) -/
theorem decode_encode_roundtrip_gains_tag9 :
    message.decode (message.encode exampleLogon fixedClock).2
      = .ok ⟨[(str "8", str "FIX.4.4"), (str "9", str "67"), (str "35", str "A"),
              (str "49", str "SENDER"), (str "56", str "TARGET"), (str "34", str "1"),
              (str "52", str "20231016-12:30:00.123")],
             [(str "9", str "67"), (str "98", str "0"), (str "108", str "30")],
             [(str "10", str "118")]⟩ ∧
    List.lookup (str "9") exampleLogon.body = none ∧
    (message.encode exampleLogon fixedClock).1.body = exampleLogon.body := by
  refine ⟨by decide, by decide, by decide⟩

/-- C2 (amended): when the token list of a delimiter-terminated input is a
run of well-formed non-checksum tokens followed by a `10`-tagged field,
`decode` compares the received value with the 3-digit mod-256 byte sum of
the concatenation of those non-empty tokens, each re-terminated with the
delimiter (this equals the exact serialized prefix only when the input has
no empty tokens); on mismatch it fails with `Invalid checksum`, an error
value that carries no message, and otherwise it succeeds.  An input with
no `10`-tagged field is not validated at all. -/
theorem decode_checksum_validation (s : Str) (front : List Str) (v : Str) (rest : List Str)
    (hend : s.getLast? = some SOH)
    (htok : (splitChar SOH s.dropLast).filter (fun x => !x.isEmpty)
              = front ++ (str "10=" ++ v) :: rest)
    (hwf : ∀ t ∈ front, goodTok t) :
    (v ≠ message.calculate_checksum (joinTokens front) →
        message.decode s = .error "Invalid checksum") ∧
    (v = message.calculate_checksum (joinTokens front) →
        ∃ msg, message.decode s = .ok msg) := by
  simp only [message.decode, if_pos hend]
  rw [htok]
  have h := decodeLoop_checksum v front rest FixMessage.new [] hwf
  rwa [List.nil_append] at h

/-- Witness for C2: a wrong received checksum is rejected with
`Invalid checksum`. -/
theorem decode_checksum_validation_w :
    message.decode (str "8=A\x0110=999\x01") = .error "Invalid checksum" :=
  (decode_checksum_validation (str "8=A\x0110=999\x01") [str "8=A"] (str "999") []
    (by decide) (by decide) (by decide)).1 (by decide)

/-- Counterexample to C2 as stated: the input `8=A\x01\x0110=183\x01` is
delimiter-terminated, its exact serialized prefix before the `10=` field is
`8=A\x01\x01` whose 3-digit mod-256 byte sum is not the received `183`
(the empty token is dropped before summation), yet `decode` succeeds; the
claimed unconditional comparison against the exact prefix does not happen. -/
theorem decode_checksum_not_exact_prefix :
    message.decode (str "8=A\x01\x0110=183\x01")
      = .ok ⟨[(str "8", str "A")], [], [(str "10", str "183")]⟩ ∧
    message.calculate_checksum (str "8=A\x01\x01") ≠ str "183" := by
  refine ⟨by decide, by decide⟩

/-- C6 (amended): in a validly encoded token sequence, modifying a single
byte inside a field value — to a different byte that is not the delimiter —
at a position outside the checksum field makes `decode` fail with
`Invalid checksum`.  Corrupting other bytes can instead produce a
malformed-field error or, when the corruption destroys the `10` tag
itself, let `decode` succeed with no checksum validation at all (see the
counterexample). -/
theorem decode_value_byte_flip (F1 F2 : List Str) (x y : Str) (c c' : Char)
    (hall : ∀ t ∈ F1 ++ (x ++ c :: y) :: F2, SOH ∉ t ∧ goodTok t)
    (hx : '=' ∈ x)
    (hcc : c' ≠ c) (hc : c.toNat < 256) (hc' : c'.toNat < 256) (hc's : c' ≠ SOH) :
    message.decode
      (joinTokens (F1 ++ (x ++ c' :: y) :: F2) ++ str "10="
        ++ message.calculate_checksum (joinTokens (F1 ++ (x ++ c :: y) :: F2)) ++ [SOH])
      = .error "Invalid checksum" := by
  have hmid := hall (x ++ c :: y) (by simp)
  have hSx : SOH ∉ x := fun h => hmid.1 (List.mem_append.mpr (Or.inl h))
  have hSy : SOH ∉ y :=
    fun h => hmid.1 (List.mem_append.mpr (Or.inr (List.mem_cons_of_mem c h)))
  obtain ⟨tg, val, hsp⟩ : ∃ tg val, splitEq x = some (tg, val) := by
    rcases hspx : splitEq x with _ | ⟨p1, p2⟩
    · exact absurd hx (splitEq_eq_none.mp hspx)
    · exact ⟨p1, p2, rfl⟩
  have hmid_orig : splitEq (x ++ c :: y) = some (tg, val ++ c :: y) := by
    rw [splitEq_append_of_mem hx, hsp]; rfl
  have hmid_mod : splitEq (x ++ c' :: y) = some (tg, val ++ c' :: y) := by
    rw [splitEq_append_of_mem hx, hsp]; rfl
  have htg10 : tg ≠ str "10" := by
    have h2 := hmid.2.2
    rw [hmid_orig] at h2
    exact h2
  have hmod : ∀ t ∈ F1 ++ (x ++ c' :: y) :: F2, SOH ∉ t ∧ goodTok t := by
    intro t ht
    rcases List.mem_append.mp ht with h | h
    · exact hall t (List.mem_append.mpr (Or.inl h))
    · rcases List.mem_cons.mp h with rfl | h
      · refine ⟨?_, ?_, ?_⟩
        · intro hmem
          rcases List.mem_append.mp hmem with h | h
          · exact hSx h
          · rcases List.mem_cons.mp h with h | h
            · exact hc's h.symm
            · exact hSy h
        · rw [hmid_mod]; rfl
        · rw [hmid_mod]; simpa using htg10
      · exact hall t (List.mem_append.mpr (Or.inr (List.mem_cons_of_mem _ h)))
  have hfree : ∀ t ∈ F1 ++ (x ++ c' :: y) :: F2, SOH ∉ t := fun t ht => (hmod t ht).1
  have hne : ∀ t ∈ F1 ++ (x ++ c' :: y) :: F2, t ≠ [] := by
    intro t ht he
    have h2 := (hmod t ht).2.1
    rw [he] at h2
    simp [splitEq] at h2
  have hvfree : SOH ∉ str "10="
      ++ message.calculate_checksum (joinTokens (F1 ++ (x ++ c :: y) :: F2)) := by
    intro h
    rcases List.mem_append.mp h with h | h
    · revert h; decide
    · exact SOH_not_mem_checksum h
  have hshape : joinTokens (F1 ++ (x ++ c' :: y) :: F2) ++ str "10="
        ++ message.calculate_checksum (joinTokens (F1 ++ (x ++ c :: y) :: F2)) ++ [SOH]
      = (joinTokens (F1 ++ (x ++ c' :: y) :: F2) ++ (str "10="
          ++ message.calculate_checksum (joinTokens (F1 ++ (x ++ c :: y) :: F2)))) ++ [SOH] := by
    simp [List.append_assoc]
  have hend : (joinTokens (F1 ++ (x ++ c' :: y) :: F2) ++ str "10="
        ++ message.calculate_checksum (joinTokens (F1 ++ (x ++ c :: y) :: F2))
        ++ [SOH]).getLast? = some SOH := by
    rw [hshape, List.getLast?_concat]
  have htokens : (splitChar SOH (joinTokens (F1 ++ (x ++ c' :: y) :: F2) ++ str "10="
        ++ message.calculate_checksum (joinTokens (F1 ++ (x ++ c :: y) :: F2))
        ++ [SOH]).dropLast).filter (fun t => !t.isEmpty)
      = (F1 ++ (x ++ c' :: y) :: F2)
        ++ (str "10=" ++ message.calculate_checksum
              (joinTokens (F1 ++ (x ++ c :: y) :: F2))) :: [] := by
    rw [hshape, List.dropLast_concat]
    rw [splitChar_joinTokens _ _ hfree, splitChar_no_delim hvfree]
    apply filter_nonempty_eq
    intro t ht
    rcases List.mem_append.mp ht with h | h
    · exact hne t h
    · rcases List.mem_cons.mp h with rfl | h
      · simp [str]
      · exact absurd h (List.not_mem_nil t)
  have hvne : message.calculate_checksum (joinTokens (F1 ++ (x ++ c :: y) :: F2))
      ≠ message.calculate_checksum (joinTokens (F1 ++ (x ++ c' :: y) :: F2)) := by
    intro heq
    have hmods := checksum_eq_imp heq
    rw [sumBytes_joinTokens_decomp, sumBytes_joinTokens_decomp] at hmods
    rw [sumBytes_append, sumBytes_append, sumBytes_cons, sumBytes_cons] at hmods
    have hct : c.toNat = c'.toNat := by omega
    exact hcc (by rw [← Char.ofNat_toNat c', ← hct, Char.ofNat_toNat])
  have hmain := (decodeLoop_checksum
      (message.calculate_checksum (joinTokens (F1 ++ (x ++ c :: y) :: F2)))
      (F1 ++ (x ++ c' :: y) :: F2) [] FixMessage.new []
      (fun t ht => (hmod t ht).2)).1
  rw [List.nil_append] at hmain
  simp only [message.decode, if_pos hend]
  rw [htokens]
  exact hmain hvne

/-- Witness for C6: flipping the value byte `A` of the first field to `B`
while keeping the original checksum is rejected with `Invalid checksum`. -/
theorem decode_value_byte_flip_w :
    message.decode
      (joinTokens ([] ++ (str "8=" ++ 'B' :: []) :: [str "35=0"]) ++ str "10="
        ++ message.calculate_checksum
            (joinTokens ([] ++ (str "8=" ++ 'A' :: []) :: [str "35=0"])) ++ [SOH])
      = .error "Invalid checksum" :=
  decode_value_byte_flip [] [str "35=0"] (str "8=") [] 'A' 'B'
    (by decide) (by decide) (by decide) (by decide) (by decide) (by decide)

/-- Counterexample to C6 as stated: in the encoded repository test
message, corrupting the first byte of the checksum field's tag
(`10=118` becomes `90=118`) makes `decode` succeed — with no checksum
validation at all — instead of failing with `InvalidChecksum`; and
corrupting a value byte outside the checksum field into the delimiter
byte fails with the malformed-field error, not `InvalidChecksum`. -/
theorem decode_corrupted_byte_not_invalid_checksum :
    (message.encode exampleLogon fixedClock).2
      = str "8=FIX.4.4\x019=67\x0135=A\x0149=SENDER\x0156=TARGET\x0134=1\x0152=20231016-12:30:00.123\x0198=0\x01108=30\x0110=118\x01" ∧
    message.decode (str "8=FIX.4.4\x019=67\x0135=A\x0149=SENDER\x0156=TARGET\x0134=1\x0152=20231016-12:30:00.123\x0198=0\x01108=30\x0190=118\x01")
      = .ok ⟨[(str "8", str "FIX.4.4"), (str "9", str "67"), (str "35", str "A"),
              (str "49", str "SENDER"), (str "56", str "TARGET"), (str "34", str "1"),
              (str "52", str "20231016-12:30:00.123")],
             [(str "9", str "67"), (str "98", str "0"), (str "108", str "30"),
              (str "90", str "118")], []⟩ ∧
    message.decode (str "8=FIX.4.4\x019=67\x0135=A\x0149=SE\x01DER\x0156=TARGET\x0134=1\x0152=20231016-12:30:00.123\x0198=0\x01108=30\x0110=118\x01")
      = .error "Invalid key-value pair in FIX message" := by
  refine ⟨by decide, by decide, by decide⟩

/-- Structure of the map-based encoder's output: a header part, the body
render, and the render of the updated trailer, whose checksum entry holds
the recomputed checksum of everything before the trailer. -/
theorem encode_unfold (m : FixMessage) (c : Str) :
    ∃ hdr, (message.encode m c).2
        = hdr ++ renderFields m.body
          ++ renderFields (message.encode m c).1.trailer ∧
      (message.encode m c).1.trailer
        = insertKV (str "10")
            (message.calculate_checksum (hdr ++ renderFields m.body)) m.trailer := by
  simp only [message.encode]
  exact ⟨_, rfl, rfl⟩

/-- The caller-supplied checksum entry is overwritten: pre-inserting any
tag-10 value into the trailer does not change the encoded output. -/
theorem encode_ignores_caller_10 (m : FixMessage) (c v10 : Str) :
    (message.encode { m with trailer := insertKV (str "10") v10 m.trailer } c).2
      = (message.encode m c).2 := by
  simp only [message.encode]
  rw [insertKV_insertKV_same]

/-- With a caller trailer holding at most a checksum entry, the encoded
trailer is exactly the one recomputed checksum entry and the output ends
with exactly that field. -/
theorem encode_trailer_single (m : FixMessage) (c : Str)
    (ht : m.trailer = [] ∨ ∃ v0, m.trailer = [(str "10", v0)]) :
    ∃ pre, (message.encode m c).1.trailer
        = [(str "10", message.calculate_checksum pre)] ∧
      (message.encode m c).2
        = pre ++ renderField (str "10", message.calculate_checksum pre) := by
  obtain ⟨hdr, hout, htr⟩ := encode_unfold m c
  have htr1 : insertKV (str "10")
        (message.calculate_checksum (hdr ++ renderFields m.body)) m.trailer
      = [(str "10", message.calculate_checksum (hdr ++ renderFields m.body))] := by
    rcases ht with h | ⟨v0, h⟩ <;> rw [h] <;> simp [insertKV]
  refine ⟨hdr ++ renderFields m.body, htr.trans htr1, ?_⟩
  rw [hout, htr, htr1]
  simp [renderFields, List.append_assoc]

/-- The encoded output depends on the header map only through the lookups
of non-9 tags and through the body-length filter view. -/
theorem encode_eq_of_R {g g' : List (Str × Str)}
    (body trailer : List (Str × Str)) (c : Str)
    (h1 : ∀ t, t ≠ str "9" → List.lookup t g' = List.lookup t g)
    (h2 : g'.filter (fun kv => !(kv.1 == str "9") && !(kv.1 == str "8"))
            = g.filter (fun kv => !(kv.1 == str "9") && !(kv.1 == str "8"))) :
    (message.encode ⟨g', body, trailer⟩ c).2
      = (message.encode ⟨g, body, trailer⟩ c).2 := by
  simp only [message.encode]
  rw [h1 (str "8") (by decide)]
  set H1' := if (List.lookup (str "8") g).isSome then g'
             else insertKV (str "8") (str "FIX.4.4") g' with hH1'
  set H1 := if (List.lookup (str "8") g).isSome then g
            else insertKV (str "8") (str "FIX.4.4") g with hH1
  have hR1 : (∀ t, t ≠ str "9" → List.lookup t H1' = List.lookup t H1) ∧
      H1'.filter (fun kv => !(kv.1 == str "9") && !(kv.1 == str "8"))
        = H1.filter (fun kv => !(kv.1 == str "9") && !(kv.1 == str "8")) := by
    rw [hH1', hH1]
    by_cases c8 : (List.lookup (str "8") g).isSome
    · rw [if_pos c8, if_pos c8]
      exact ⟨h1, h2⟩
    · rw [if_neg c8, if_neg c8]
      constructor
      · intro t ht
        by_cases t8 : t = str "8"
        · subst t8
          rw [lookup_insertKV_self, lookup_insertKV_self]
        · rw [lookup_insertKV_ne t8, lookup_insertKV_ne t8]
          exact h1 t ht
      · rw [filter_insertKV (fun w => show (!(str "8" == str "9")
              && !(str "8" == str "8")) = false from by decide) _ g,
            filter_insertKV (fun w => show (!(str "8" == str "9")
              && !(str "8" == str "8")) = false from by decide) _ g']
        exact h2
  rw [hR1.1 (str "52") (by decide)]
  set H2' := if (List.lookup (str "52") H1).isSome then H1'
             else insertKV (str "52") c H1' with hH2'
  set H2 := if (List.lookup (str "52") H1).isSome then H1
            else insertKV (str "52") c H1 with hH2
  have hR2 : (∀ t, t ≠ str "9" → List.lookup t H2' = List.lookup t H2) ∧
      H2'.filter (fun kv => !(kv.1 == str "9") && !(kv.1 == str "8"))
        = H2.filter (fun kv => !(kv.1 == str "9") && !(kv.1 == str "8")) := by
    rw [hH2', hH2]
    by_cases c52 : (List.lookup (str "52") H1).isSome
    · rw [if_pos c52, if_pos c52]
      exact hR1
    · rw [if_neg c52, if_neg c52]
      constructor
      · intro t ht
        by_cases t52 : t = str "52"
        · subst t52
          rw [lookup_insertKV_self, lookup_insertKV_self]
        · rw [lookup_insertKV_ne t52, lookup_insertKV_ne t52]
          exact hR1.1 t ht
      · rw [filter_insertKV_pos (fun w => show (!(str "52" == str "9")
              && !(str "52" == str "8")) = true from by decide) c H1,
            filter_insertKV_pos (fun w => show (!(str "52" == str "9")
              && !(str "52" == str "8")) = true from by decide) c H1']
        rw [hR1.2]
  rw [hR2.2]
  have hfun : (fun t => (List.lookup t (insertKV (str "9")
        (natDigits ((renderFields (H2.filter
          (fun kv => !(kv.1 == str "9") && !(kv.1 == str "8")))).length
            + (renderFields body).length)) H2')).map (fun v => renderField (t, v)))
      = (fun t => (List.lookup t (insertKV (str "9")
        (natDigits ((renderFields (H2.filter
          (fun kv => !(kv.1 == str "9") && !(kv.1 == str "8")))).length
            + (renderFields body).length)) H2)).map (fun v => renderField (t, v))) := by
    funext t
    by_cases t9 : t = str "9"
    · subst t9
      rw [lookup_insertKV_self, lookup_insertKV_self]
    · rw [lookup_insertKV_ne t9, lookup_insertKV_ne t9, hR2.1 t t9]
  rw [hfun]

/-- C8 (amended): for a message whose caller trailer is empty or holds only
a checksum entry, after the map-based encode the trailer is exactly one
freshly recomputed checksum entry, the emitted trailer portion is exactly
that one checksum field, and the encoded output is invariant under
caller-supplied body-length (tag 9) and checksum (tag 10) values — both
are always recomputed. -/
theorem encode_trailer_exactly_checksum (m : FixMessage) (c v9 v10 : Str)
    (ht : m.trailer = [] ∨ ∃ v0, m.trailer = [(str "10", v0)]) :
    (∃ pre, (message.encode m c).1.trailer
          = [(str "10", message.calculate_checksum pre)] ∧
        (message.encode m c).2
          = pre ++ renderField (str "10", message.calculate_checksum pre)) ∧
    (message.encode { header := insertKV (str "9") v9 m.header, body := m.body,
                      trailer := insertKV (str "10") v10 m.trailer } c).2
      = (message.encode m c).2 := by
  constructor
  · exact encode_trailer_single m c ht
  · have step1 : (message.encode
          ⟨insertKV (str "9") v9 m.header, m.body,
           insertKV (str "10") v10 m.trailer⟩ c).2
        = (message.encode ⟨insertKV (str "9") v9 m.header, m.body, m.trailer⟩ c).2 :=
      encode_ignores_caller_10 ⟨insertKV (str "9") v9 m.header, m.body, m.trailer⟩ c v10
    rw [step1]
    apply encode_eq_of_R
    · intro t ht9
      exact lookup_insertKV_ne ht9 v9 m.header
    · exact filter_insertKV (fun w => show (!(str "9" == str "9")
        && !(str "9" == str "8")) = false from by decide) v9 m.header

/-- Witness for C8: the amended claim applied to the repository's logon
test message, with caller-supplied tag-9 value `999` and tag-10 value
`000`. -/
theorem encode_trailer_exactly_checksum_w :
    (∃ pre, (message.encode exampleLogon fixedClock).1.trailer
          = [(str "10", message.calculate_checksum pre)] ∧
        (message.encode exampleLogon fixedClock).2
          = pre ++ renderField (str "10", message.calculate_checksum pre)) ∧
    (message.encode { header := insertKV (str "9") (str "999") exampleLogon.header,
                      body := exampleLogon.body,
                      trailer := insertKV (str "10") (str "000") exampleLogon.trailer }
        fixedClock).2
      = (message.encode exampleLogon fixedClock).2 :=
  encode_trailer_exactly_checksum exampleLogon fixedClock (str "999") (str "000")
    (Or.inl rfl)

/-- Counterexample to C8 as stated: a caller-prepopulated trailer entry
with tag `7` survives encoding — afterwards the trailer holds two entries
and the emitted trailer portion is the alien field followed by the
checksum field, not the checksum field alone. -/
theorem encode_trailer_keeps_alien_entries :
    (message.encode ⟨[(str "8", str "A")], [], [(str "7", str "Z")]⟩ (str "T")).1.trailer
      = [(str "7", str "Z"), (str "10", str "092")] ∧
    (message.encode ⟨[(str "8", str "A")], [], [(str "7", str "Z")]⟩ (str "T")).2
      = str "8=A\x019=5\x0152=T\x017=Z\x0110=092\x01" := by
  refine ⟨by decide, by decide⟩

/-- C5 (amended): the map-based encoder writes as checksum value the
3-digit zero-padded decimal of the byte sum mod 256 of everything before
the checksum field; the optimised `FixMessage2::encode` writes the same
number in minimal decimal form, WITHOUT zero padding
(`int_to_str_no_alloc` never pads). -/
theorem checksum_field_value (m : FixMessage) (c : Str)
    (m2 : message_optimised.FixMessage2)
    (ht : m.trailer = [] ∨ ∃ v0, m.trailer = [(str "10", v0)]) :
    (∃ pre, (message.encode m c).2
        = pre ++ renderField (str "10", pad3 (natDigits (sumBytes pre % 256)))) ∧
    (∃ pre, (m2.encode).2
        = pre ++ str "10="
          ++ message_optimised.int_to_str_no_alloc (sumBytes pre % 256) ++ [SOH]) := by
  constructor
  · obtain ⟨pre, _, hout⟩ := encode_trailer_single m c ht
    exact ⟨pre, hout⟩
  · simp only [message_optimised.FixMessage2.encode, message_optimised.calculate_checksum]
    exact ⟨_, rfl⟩

/-- Witness for C5: the two encoders applied to the repository's logon
message and to a `FixMessage2` carrying one empty `Symbol` field. -/
theorem checksum_field_value_w :
    (∃ pre, (message.encode exampleLogon fixedClock).2
        = pre ++ renderField (str "10", pad3 (natDigits (sumBytes pre % 256)))) ∧
    (∃ pre, (exampleMsg2.encode).2
        = pre ++ str "10="
          ++ message_optimised.int_to_str_no_alloc (sumBytes pre % 256) ++ [SOH]) :=
  checksum_field_value exampleLogon fixedClock exampleMsg2 (Or.inl rfl)

/-- Counterexample to C5 as stated: `FixMessage2::encode` writes the
checksum `83` with two digits; the 3-digit zero-padded form of the same
sum is `083`. -/
theorem checksum_not_padded_in_optimised :
    (exampleMsg2.encode).2 = str "9=4\x0155=\x0110=83\x01" ∧
    pad3 (natDigits (sumBytes (str "9=4\x0155=\x01") % 256)) = str "083" ∧
    str "83" ≠ str "083" := by
  refine ⟨by decide, by decide, by decide⟩

/-- C3 (amended): for a message whose header keys are all among the 7
mandatory tags (unique, as in a hash map) and whose trailer is empty, the
value stored in the body-length field (tag 9) of the encoded output equals
the byte count of everything after that field's delimiter through the
delimiter immediately preceding the checksum field. -/
theorem encode_body_length_span (m : FixMessage) (c : Str)
    (hnd : (m.header.map Prod.fst).Nodup)
    (hsub : ∀ kv ∈ m.header, kv.1 ∈ message.requiredOrder)
    (ht : m.trailer = []) :
    ∃ v8 n rest ck,
      (message.encode m c).2
        = renderField (str "8", v8) ++ renderField (str "9", natDigits n)
          ++ rest ++ renderField (str "10", ck) ∧
      n = rest.length := by
  simp only [message.encode, ht]
  set H1 := if (List.lookup (str "8") m.header).isSome = true then m.header
            else insertKV (str "8") (str "FIX.4.4") m.header with hH1
  set H2 := if (List.lookup (str "52") H1).isSome = true then H1
            else insertKV (str "52") c H1 with hH2
  obtain ⟨v8, hv8H1⟩ : ∃ v, List.lookup (str "8") H1 = some v := by
    rw [hH1]
    by_cases c8 : (List.lookup (str "8") m.header).isSome = true
    · rw [if_pos c8]; exact Option.isSome_iff_exists.mp c8
    · rw [if_neg c8]; exact ⟨_, lookup_insertKV_self _ _ _⟩
  have hv8 : List.lookup (str "8") H2 = some v8 := by
    rw [hH2]
    by_cases c52 : (List.lookup (str "52") H1).isSome = true
    · rw [if_pos c52]; exact hv8H1
    · rw [if_neg c52, lookup_insertKV_ne (by decide)]; exact hv8H1
  have hndH1 : (H1.map Prod.fst).Nodup := by
    rw [hH1]
    by_cases c8 : (List.lookup (str "8") m.header).isSome = true
    · rw [if_pos c8]; exact hnd
    · rw [if_neg c8]; exact nodup_keys_insertKV hnd
  have hndH2 : (H2.map Prod.fst).Nodup := by
    rw [hH2]
    by_cases c52 : (List.lookup (str "52") H1).isSome = true
    · rw [if_pos c52]; exact hndH1
    · rw [if_neg c52]; exact nodup_keys_insertKV hndH1
  have hsubH1 : ∀ kv ∈ H1, kv.1 ∈ message.requiredOrder := by
    rw [hH1]
    by_cases c8 : (List.lookup (str "8") m.header).isSome = true
    · rw [if_pos c8]; exact hsub
    · rw [if_neg c8]
      intro kv hkv
      rcases mem_insertKV hkv with h | h
      · rw [h]; decide
      · exact hsub kv h
  have hsubH2 : ∀ kv ∈ H2, kv.1 ∈ message.requiredOrder := by
    rw [hH2]
    by_cases c52 : (List.lookup (str "52") H1).isSome = true
    · rw [if_pos c52]; exact hsubH1
    · rw [if_neg c52]
      intro kv hkv
      rcases mem_insertKV hkv with h | h
      · rw [h]
        show str "52" ∈ message.requiredOrder
        decide
      · exact hsubH1 kv h
  set L := (renderFields (H2.filter
      (fun kv => !(kv.1 == str "9") && !(kv.1 == str "8")))).length
    + (renderFields m.body).length with hLdef
  have hl8 : List.lookup (str "8") (insertKV (str "9") (natDigits L) H2) = some v8 := by
    rw [lookup_insertKV_ne (by decide)]; exact hv8
  have hl9 : List.lookup (str "9") (insertKV (str "9") (natDigits L) H2)
      = some (natDigits L) := lookup_insertKV_self _ _ _
  have hcongr : [str "35", str "49", str "56", str "34", str "52"].filterMap
        (fun t => (List.lookup t (insertKV (str "9") (natDigits L) H2)).map
          (fun v => renderField (t, v)))
      = [str "35", str "49", str "56", str "34", str "52"].filterMap
        (fun t => (List.lookup t H2).map (fun v => renderField (t, v))) := by
    apply List.filterMap_congr
    intro t htmem
    have ht9 : t ≠ str "9" := by
      revert htmem
      simp only [List.mem_cons, List.not_mem_nil, or_false]
      rintro (h | h | h | h | h) <;> subst h <;> decide
    rw [lookup_insertKV_ne ht9]
  have hmapTF : [str "35", str "49", str "56", str "34", str "52"].filterMap
        (fun t => (List.lookup t H2).map (fun v => renderField (t, v)))
      = ([str "35", str "49", str "56", str "34", str "52"].filterMap
          (fun t => (List.lookup t H2).map (fun v => (t, v)))).map renderField := by
    rw [List.map_filterMap]
    apply List.filterMap_congr
    intro t _
    rcases List.lookup t H2 with _ | w <;> rfl
  have hlen : (renderFields (H2.filter
        (fun kv => !(kv.1 == str "9") && !(kv.1 == str "8")))).length
      = (([str "35", str "49", str "56", str "34", str "52"].filterMap
          (fun t => (List.lookup t H2).map
            (fun v => renderField (t, v)))).flatten).length := by
    rw [hmapTF, renderFields, List.length_flatten, List.length_flatten]
    exact (((filter_perm_filterMap hndH2 hsubH2).map renderField).map
      List.length).sum_eq
  refine ⟨v8, L,
    ([str "35", str "49", str "56", str "34", str "52"].filterMap
      (fun t => (List.lookup t H2).map (fun v => renderField (t, v)))).flatten
      ++ renderFields m.body,
    message.calculate_checksum
      ((List.filterMap (fun t => (List.lookup t (insertKV (str "9")
          (natDigits L) H2)).map (fun v => renderField (t, v)))
        message.requiredOrder).flatten ++ renderFields m.body), ?_, ?_⟩
  · simp only [message.requiredOrder, List.filterMap_cons, hl8, hl9,
      Option.map_some', hcongr, List.flatten_cons, insertKV, renderFields,
      List.map_cons, List.map_nil, List.flatten_nil, List.append_nil,
      List.append_assoc]
  · rw [List.length_append, hLdef, hlen]

/-- Witness for C3: the amended claim applied to the repository's logon
message, whose header keys are exactly the 7 mandatory tags. -/
theorem encode_body_length_span_w :
    ∃ v8 n rest ck,
      (message.encode exampleLogon fixedClock).2
        = renderField (str "8", v8) ++ renderField (str "9", natDigits n)
          ++ rest ++ renderField (str "10", ck) ∧
      n = rest.length :=
  encode_body_length_span exampleLogon fixedClock (by decide) (by decide) rfl

/-- Counterexample to C3 as stated: with a non-mandatory header field
(tag 50), the encoder counts that field in the body length but never emits
it, so the stored tag-9 value 15 exceeds the 10 bytes actually present
between the body-length field's delimiter and the delimiter preceding the
checksum field. -/
theorem encode_body_length_wrong_with_extra_header :
    (message.encode exampleExtraHeader (str "T")).2
      = renderField (str "8", str "A") ++ renderField (str "9", natDigits 15)
        ++ str "52=T\x0198=0\x01" ++ renderField (str "10", str "108") ∧
    List.lookup (str "50") (message.encode exampleExtraHeader (str "T")).1.header
      = some (str "Q") ∧
    (str "52=T\x0198=0\x01").length = 10 ∧ (15 : Nat) ≠ 10 := by
  refine ⟨by decide, by decide, by decide, by decide⟩

/-- C4 (amended): the `fix_message.rs` encoder emits every header field —
the present mandatory fields first in the fixed order 8, 9, 35, 49, 56,
34, 52, then the remaining header fields, then body, then trailer; the
`message.rs` encoder emits only the mandatory header fields (in the same
fixed order) before body and trailer, omitting non-mandatory header
fields from the output. -/
theorem encode_field_order :
    (∀ (m : FixMessage) (c k v : Str),
        List.lookup k (fix_message.encode m c).1.header = some v →
        ∃ pre post, (fix_message.encode m c).2 = pre ++ renderField (k, v) ++ post) ∧
    (∀ (m : FixMessage) (c : Str), (fix_message.encode m c).2
        = (fix_message.REQUIRED_HEADER_FIELDS.filterMap (fun t =>
             (List.lookup t (fix_message.encode m c).1.header).map
               (fun v => renderField (t, v)))).flatten
          ++ renderFields ((fix_message.encode m c).1.header.filter
               (fun kv => !(fix_message.REQUIRED_HEADER_FIELDS.contains kv.1)))
          ++ renderFields m.body
          ++ renderFields (fix_message.encode m c).1.trailer) ∧
    (∀ (m : FixMessage) (c : Str), (message.encode m c).2
        = (message.requiredOrder.filterMap (fun t =>
             (List.lookup t (message.encode m c).1.header).map
               (fun v => renderField (t, v)))).flatten
          ++ renderFields m.body
          ++ renderFields (message.encode m c).1.trailer) := by
  have horder : ∀ (m : FixMessage) (c : Str), (fix_message.encode m c).2
      = (fix_message.REQUIRED_HEADER_FIELDS.filterMap (fun t =>
           (List.lookup t (fix_message.encode m c).1.header).map
             (fun v => renderField (t, v)))).flatten
        ++ renderFields ((fix_message.encode m c).1.header.filter
             (fun kv => !(fix_message.REQUIRED_HEADER_FIELDS.contains kv.1)))
        ++ renderFields m.body
        ++ renderFields (fix_message.encode m c).1.trailer :=
    fun m c => rfl
  refine ⟨?_, horder, fun m c => rfl⟩
  intro m c k v hkv
  rw [horder m c]
  rw [List.append_assoc, List.append_assoc]
  by_cases hmem : k ∈ fix_message.REQUIRED_HEADER_FIELDS
  · apply exists_decomp_left
    exact flatten_filterMap_contains _ hmem hkv
  · apply exists_decomp_right
    apply exists_decomp_left
    apply renderFields_contains
    apply List.mem_filter.mpr
    refine ⟨mem_of_lookup_eq_some hkv, ?_⟩
    show (!fix_message.REQUIRED_HEADER_FIELDS.contains k) = true
    cases hc : fix_message.REQUIRED_HEADER_FIELDS.contains k
    · rfl
    · exact absurd (List.mem_of_elem_eq_true hc) hmem

/-- Witness for C4: the `fix_message.rs` encoder does emit the
non-mandatory header field `50=Q`. -/
theorem encode_field_order_w :
    ∃ pre post, (fix_message.encode exampleExtraHeader (str "T")).2
      = pre ++ renderField (str "50", str "Q") ++ post :=
  encode_field_order.1 exampleExtraHeader (str "T") (str "50") (str "Q") (by decide)

/-- Counterexample to C4 as stated: the `message.rs` encoder keeps the
non-mandatory header field `50=Q` in its header map but emits no such
field anywhere in the output. -/
theorem encode_omits_nonmandatory_header_field :
    List.lookup (str "50") (message.encode exampleExtraHeader (str "T")).1.header
      = some (str "Q") ∧
    ¬ ∃ pre post, (message.encode exampleExtraHeader (str "T")).2
        = pre ++ renderField (str "50", str "Q") ++ post := by
  refine ⟨by decide, ?_⟩
  rintro ⟨pre, post, he⟩
  have h := findSubstr_isSome_of_decomp he
  rw [show findSubstr (renderField (str "50", str "Q"))
      (message.encode exampleExtraHeader (str "T")).2 = none from by decide] at h
  exact absurd h (by simp)

end FixSpec
